import Mathlib

/-!
Verification of go-getmail (mback2k/go-getmail) against its design spec.

The repository forwards e-mails between IMAP servers.  The definitions below
are a shallow embedding of the Go code in `src/imap.go` (the per-account
engine: `init`, `close`, `handle`, `fetchMessages`, `storeMessages`,
`cleanMessages`), of `TokenSource.Token` / `DeviceAuthTokenSource.Token`
(the OAuth2 device-authorization flow) and of `mqttLoadToken` /
`HassMqttAuthBackend.LoadToken` (the broker-backed token cache).

External effects (dial/login, SELECT, FETCH, APPEND, UID STORE, MQTT
connect/subscribe/publish, the OAuth2 endpoints) are modelled by result
oracles passed in through environment records; the observable behaviour of
one call is returned as an event trace plus the function results, so that
ordering claims can be stated over the trace.
-/

namespace Getmail

abbrev Err := String

/-- IMAP system flags, as used by `storeMessages` in `src/imap.go`. -/
def DeletedFlag : String := "\\Deleted"

def SeenFlag : String := "\\Seen"

def RecentFlag : String := "\\Recent"

/-- Mailbox status as returned by SELECT (`imap.MailboxStatus`):
the claims only need the mailbox name and the message count. -/
structure MailboxStatus where
  name : String
  messages : Nat
deriving Repr, DecidableEq

/-- `imap.Message`: UID, flag set, internal timestamp and raw body. -/
structure Message where
  uid : Nat
  flags : List String
  internalDate : Nat
  body : String
deriving Repr, DecidableEq

/-- Observable events of one `handle` cycle, in program order. -/
inductive Ev where
  | openSource
  | closeSource
  | openTarget
  | closeTarget
  | selectSource
  | selectTarget
  | fetchReq (fromSeq toSeq : Nat)
  | closeMessages
  | append (uid : Nat) (flags : List String) (date : Nat)
  | appendFail (uid : Nat)
  | emitDelete (uid : Nat)
  | closeDeletes
  | uidStore (uids : List Nat)
  | cancel
deriving Repr, DecidableEq

/-- Lifecycle states of `fetchConfig.state` (`fetchState` in `src/imap.go`;
the Go constants are the bit values 0, 1, 2, 4, 8, 16). -/
inductive FState where
  | initial
  | connecting
  | connected
  | watching
  | handling
  | shutdown
deriving Repr, DecidableEq

/-- The numeric value of each `fetchState` constant in the source. -/
def FState.val : FState → Nat
  | .initial => 0
  | .connecting => 1
  | .connected => 2
  | .watching => 4
  | .handling => 8
  | .shutdown => 16

/-- The kinds of `client.Update` that can arrive on the `updates` channel. -/
inductive Update where
  | mailboxUpd (status : MailboxStatus)
  | messageUpd
  | expungeUpd
  | statusUpd
deriving Repr, DecidableEq

/-- The observable per-account state of a `fetchConfig`: lifecycle state,
cumulative forwarded-message count `total`, and the buffered contents of
the single-slot `updates` channel. -/
structure Config where
  state : FState
  total : Nat
  updates : List Update
deriving Repr, DecidableEq

/-- The flag loop at the top of `storeMessages`: returns whether the
message carries the deleted flag, and the flags that survive
(everything except the deleted, recent and seen markers, in order). -/
def filterFlags : List String → Bool × List String
  | [] => (false, [])
  | f :: fs =>
    if f = DeletedFlag then (true, (filterFlags fs).2)
    else if f = RecentFlag then filterFlags fs
    else if f = SeenFlag then filterFlags fs
    else ((filterFlags fs).1, f :: (filterFlags fs).2)

/-- `fetchMessages` (`src/imap.go`): selects the source mailbox; on select
error it reports the error and closes the message queue; with zero
messages it closes the message queue immediately without an error;
otherwise it fetches the range `[1, count]` streaming every message.
The source mailbox contents stand in for the FETCH responses. -/
def fetchMessages (selectErr : Option Err) (fetchErr : Option Err)
    (mailbox : List Message) : List Ev × List Message × Option Err :=
  match selectErr with
  | some e => ([Ev.selectSource, Ev.closeMessages], [], some e)
  | none =>
    if mailbox.length < 1 then
      ([Ev.selectSource, Ev.closeMessages], [], none)
    else
      ([Ev.selectSource, Ev.fetchReq 1 mailbox.length, Ev.closeMessages],
       mailbox, fetchErr)

/-- The message loop of `storeMessages`: `appendRes` is the APPEND oracle
(`none` = success).  Returns the event trace, the UIDs pushed onto the
delete-id queue, and the stage error.  The deferred `close(deletes)`
runs on every exit path, hence `Ev.closeDeletes` ends every branch. -/
def storeLoop (appendRes : Message → Option Err) :
    List Message → List Ev × List Nat × Option Err
  | [] => ([Ev.closeDeletes], [], none)
  | m :: ms =>
    if (filterFlags m.flags).1 then
      storeLoop appendRes ms
    else
      match appendRes m with
      | some e => ([Ev.appendFail m.uid, Ev.closeDeletes], [], some e)
      | none =>
        (Ev.append m.uid (filterFlags m.flags).2 m.internalDate ::
           Ev.emitDelete m.uid :: (storeLoop appendRes ms).1,
         m.uid :: (storeLoop appendRes ms).2.1,
         (storeLoop appendRes ms).2.2)

/-- `storeMessages` (`src/imap.go`): selects the target mailbox (reporting
a select failure, with the deferred `close(deletes)` still running),
then runs the message loop. -/
def storeMessages (selectErr : Option Err) (appendRes : Message → Option Err)
    (msgs : List Message) : List Ev × List Nat × Option Err :=
  match selectErr with
  | some e => ([Ev.closeDeletes], [], some e)
  | none =>
    (Ev.selectTarget :: (storeLoop appendRes msgs).1,
     (storeLoop appendRes msgs).2.1, (storeLoop appendRes msgs).2.2)

/-- `cleanMessages` (`src/imap.go`): drains the delete-id queue into one
sequence set; if it is empty no request is made, otherwise one single
`UID STORE +FLAGS (deleted)` request naming all collected UIDs is
issued, whose result is `uidStoreErr`. -/
def cleanMessages (uidStoreErr : Option Err) (dels : List Nat) :
    List Ev × Option Err :=
  if dels.isEmpty then ([], none)
  else ([Ev.uidStore dels], uidStoreErr)

/-- Oracle environment for one `handle` cycle: the results of every
external call it can make, plus the source mailbox contents. -/
structure HandleEnv where
  srcOpenErr : Option Err
  tgtOpenErr : Option Err
  fetchSelectErr : Option Err
  fetchErr : Option Err
  mailbox : List Message
  storeSelectErr : Option Err
  appendRes : Message → Option Err
  uidStoreErr : Option Err

/-- The first error among the stage results, in stage order. -/
def firstSome : List (Option Err) → Option Err
  | [] => none
  | some e :: _ => some e
  | none :: rest => firstSome rest

/-- The three pipeline stages of one `handle` cycle, composed: the global
trace is the linearization fetch-stage, store-stage, cleanup-stage,
which respects every happens-before edge of the goroutines (each UID is
emitted after its append, and the cleanup request follows the closing
of the delete-id queue).  Also returns the number of successful appends
(the increment of `total`) and the pipeline's error, if any. -/
def pipelineRun (env : HandleEnv) : List Ev × Nat × Option Err :=
  let f := fetchMessages env.fetchSelectErr env.fetchErr env.mailbox
  let s := storeMessages env.storeSelectErr env.appendRes f.2.1
  let cl := cleanMessages env.uidStoreErr s.2.1
  (f.1 ++ s.1 ++ cl.1, s.2.1.length, firstSome [f.2.2, s.2.2, cl.2])

/-- `handle` (`src/imap.go`, lines 235-278).  The deferred closure saves the
state at entry and restores it on every exit path.  `handle` opens fresh
source and target sessions (closed by deferred calls in LIFO order), runs
the pipeline, and calls `cancel()` on any failure; it has **no** return
value.  Result: the updated config, the event trace, and whether
`cancel()` was called. -/
def handle (env : HandleEnv) (c : Config) : Config × List Ev × Bool :=
  let saved := c.state
  let c1 : Config := { c with state := FState.handling }
  match env.srcOpenErr with
  | some _ => ({ c1 with state := saved }, [Ev.cancel], true)
  | none =>
    match env.tgtOpenErr with
    | some _ =>
      ({ c1 with state := saved },
       [Ev.openSource, Ev.cancel, Ev.closeSource], true)
    | none =>
      ({ c1 with state := saved, total := c1.total + (pipelineRun env).2.1 },
       [Ev.openSource, Ev.openTarget] ++ (pipelineRun env).1 ++
         (if (pipelineRun env).2.2.isSome then [Ev.cancel] else []) ++
         [Ev.closeTarget, Ev.closeSource],
       (pipelineRun env).2.2.isSome)

/-- `close` (`src/imap.go`, lines 187-203): sets the shutdown state, then
logs out the idle, source and target connections in order, returning at
the first failure (the state stays at shutdown); only when all three
succeed is the state reset to initial.  The three oracles are the
`Logout` results (a `nil` connection logs out successfully). -/
def close (c : Config) (idleCloseErr srcCloseErr tgtCloseErr : Option Err) :
    Config × Option Err :=
  let c1 : Config := { c with state := FState.shutdown }
  match idleCloseErr with
  | some e => (c1, some e)
  | none =>
    match srcCloseErr with
    | some e => (c1, some e)
    | none =>
      match tgtCloseErr with
      | some e => (c1, some e)
      | none => ({ c1 with state := FState.initial }, none)

/-- The externally visible steps of `init`, in source order. -/
inductive InitStep where
  | srcProbeOpen
  | srcProbeClose
  | tgtProbeOpen
  | tgtProbeClose
  | idleOpen
  | idleSelect
deriving Repr, DecidableEq

/-- All six steps of a fully successful `init`, in order. -/
def initStepsAll : List InitStep :=
  [InitStep.srcProbeOpen, InitStep.srcProbeClose, InitStep.tgtProbeOpen,
   InitStep.tgtProbeClose, InitStep.idleOpen, InitStep.idleSelect]

/-- Oracle environment for `init`: results of the two probe opens and
closes, of opening the idle connection, and of the idle SELECT. -/
structure InitEnv where
  srcOpenErr : Option Err
  srcCloseErr : Option Err
  tgtOpenErr : Option Err
  tgtCloseErr : Option Err
  idleOpenErr : Option Err
  idleSelect : Except Err MailboxStatus

/-- `init` (`src/imap.go`, lines 131-161): sets the connecting state, probes
source (open then close), probes target (open then close), opens the
long-lived idle session, and runs `initIDLE`, which selects the mailbox
and primes the capacity-1 `updates` channel with the select's mailbox
update.  Any failure returns that error with the state left at
connecting; on full success the state becomes connected.  Returns the
updated config, the steps performed, and the error. -/
def init (env : InitEnv) (c : Config) : Config × List InitStep × Option Err :=
  let c1 : Config := { c with state := FState.connecting }
  match env.srcOpenErr with
  | some e => (c1, [InitStep.srcProbeOpen], some e)
  | none =>
    match env.srcCloseErr with
    | some e => (c1, [InitStep.srcProbeOpen, InitStep.srcProbeClose], some e)
    | none =>
      match env.tgtOpenErr with
      | some e =>
        (c1, [InitStep.srcProbeOpen, InitStep.srcProbeClose,
              InitStep.tgtProbeOpen], some e)
      | none =>
        match env.tgtCloseErr with
        | some e =>
          (c1, [InitStep.srcProbeOpen, InitStep.srcProbeClose,
                InitStep.tgtProbeOpen, InitStep.tgtProbeClose], some e)
        | none =>
          match env.idleOpenErr with
          | some e =>
            (c1, [InitStep.srcProbeOpen, InitStep.srcProbeClose,
                  InitStep.tgtProbeOpen, InitStep.tgtProbeClose,
                  InitStep.idleOpen], some e)
          | none =>
            match env.idleSelect with
            | Except.error e => (c1, initStepsAll, some e)
            | Except.ok st =>
              ({ c1 with state := FState.connected,
                         updates := [Update.mailboxUpd st] },
               initStepsAll, none)

/-- The body of the `watch` select loop for one received update
(`src/imap.go`, lines 222-227): only a `MailboxUpdate` triggers a
`handle` cycle; every other update kind is logged and ignored.
Returns the updated config and whether `handle` ran. -/
def watchStep (henv : HandleEnv) (c : Config) (u : Update) : Config × Bool :=
  match u with
  | Update.mailboxUpd _ => ((handle henv c).1, true)
  | _ => (c, false)

/-- The first iteration of the `watch` loop: it receives the head of the
buffered `updates` channel (if any) and processes it. -/
def watchFirstIteration (henv : HandleEnv) (c : Config) : Config × Bool :=
  match c.updates with
  | [] => (c, false)
  | u :: rest => watchStep henv { c with updates := rest } u

/-- What the `watch` loop does right after a `handle` call returns: if
`handle` called `cancel()`, the idle goroutine terminates and delivers
its result `idleRes` on the error channel, which `watch` then returns;
otherwise `watch` keeps looping.  `handle` itself returns no value, so
the only error the caller can ever observe is the idle result. -/
inductive WatchCont where
  | looping
  | returned (e : Option Err)
deriving Repr, DecidableEq

/-- Composition of one `handle` cycle with the `watch` loop's reaction. -/
def watchAfterHandle (env : HandleEnv) (c : Config) (idleRes : Option Err) :
    Config × WatchCont :=
  ((handle env c).1,
   if (handle env c).2.2 then WatchCont.returned idleRes else WatchCont.looping)

/-- An OAuth2 token: access token, refresh token, expiry. -/
structure Token where
  accessToken : String
  refreshTok : String
  expiry : Nat
deriving Repr, DecidableEq

/-- A device-authorization challenge (`oauth2.DeviceAuthResponse`):
verification URI and user code. -/
structure DeviceCode where
  verificationURI : String
  userCode : String
deriving Repr, DecidableEq

/-- Observable steps of one `TokenSource.Token()` call. -/
inductive TEv where
  | loadToken
  | deviceAuthReq
  | notify (link code : String)
  | deviceTokenExchange
  | refresh
  | save
deriving Repr, DecidableEq

/-- Oracle environment for one `Token()` call: the backend load result,
the device-authorization endpoint results, the refresh wrapper and the
backend save result. -/
structure TokenEnv where
  loadRes : Except Err (Option Token)
  deviceAuthRes : Except Err DeviceCode
  notifyRes : Option Err
  deviceTokenRes : Except Err Token
  refreshRes : Token → Except Err Token
  saveRes : Option Err

/-- The shared tail of `Token()`: pass the token (cached or fresh) through
the provider's refresh-capable wrapper, then save it via the backend;
any failure is returned, otherwise the refreshed token is. -/
def finishToken (env : TokenEnv) (tok : Token) (evs : List TEv) :
    List TEv × Except Err Token :=
  match env.refreshRes tok with
  | Except.error e => (evs ++ [TEv.refresh], Except.error e)
  | Except.ok tok2 =>
    match env.saveRes with
    | some e => (evs ++ [TEv.refresh, TEv.save], Except.error e)
    | none => (evs ++ [TEv.refresh, TEv.save], Except.ok tok2)

/-- `TokenSource.Token()` (`src/modernauth`, identical in structure for
`DeviceAuthTokenSource.Token` and the MQTT-backed `TokenSource.Token`):
load a cached token from the backend (propagating errors); when absent,
request a device code, notify the user, and block on the device-token
exchange; in either case finish by refreshing and saving. -/
def tokenSourceToken (env : TokenEnv) : List TEv × Except Err Token :=
  match env.loadRes with
  | Except.error e => ([TEv.loadToken], Except.error e)
  | Except.ok (some tok) => finishToken env tok [TEv.loadToken]
  | Except.ok none =>
    match env.deviceAuthRes with
    | Except.error e => ([TEv.loadToken, TEv.deviceAuthReq], Except.error e)
    | Except.ok code =>
      match env.notifyRes with
      | some e =>
        ([TEv.loadToken, TEv.deviceAuthReq,
          TEv.notify code.verificationURI code.userCode], Except.error e)
      | none =>
        match env.deviceTokenRes with
        | Except.error e =>
          ([TEv.loadToken, TEv.deviceAuthReq,
            TEv.notify code.verificationURI code.userCode,
            TEv.deviceTokenExchange], Except.error e)
        | Except.ok tok =>
          finishToken env tok
            [TEv.loadToken, TEv.deviceAuthReq,
             TEv.notify code.verificationURI code.userCode,
             TEv.deviceTokenExchange]

/-- The outcome of the select in `mqttLoadToken` / `LoadToken`: an error
delivered by the subscriber callback, a token delivered by it, the
context being cancelled, or the one-second timer firing. -/
inductive LoadWaitOutcome where
  | recvErr (e : Err)
  | recvTok (t : Token)
  | ctxDone
  | waitTimeout
deriving Repr, DecidableEq

/-- Oracle environment for one `LoadToken` call. -/
structure LoadEnv where
  connectErr : Option Err
  subscribeErr : Option Err
  wait : LoadWaitOutcome

/-- `mqttLoadToken` (`src/modernauth/mqtt.go`) and
`HassMqttAuthBackend.LoadToken` (`src/modernauth/hassmqtt/hassmqtt.go`):
connect and subscribe to the per-account retained topic (propagating
failures), then wait for a retained value, an error, cancellation or
the timeout; cancellation and timeout return no token and no error. -/
def mqttLoadToken (env : LoadEnv) : Except Err (Option Token) :=
  match env.connectErr with
  | some e => Except.error e
  | none =>
    match env.subscribeErr with
    | some e => Except.error e
    | none =>
      match env.wait with
      | LoadWaitOutcome.recvErr e => Except.error e
      | LoadWaitOutcome.recvTok t => Except.ok (some t)
      | LoadWaitOutcome.ctxDone => Except.ok none
      | LoadWaitOutcome.waitTimeout => Except.ok none

/-- Every `emitDelete u` in the trace is preceded by an `append u` that
succeeded: scanning left to right, `a` accumulates the UIDs whose append
has already returned success. -/
def emitsAfterAppend (a : List Nat) : List Ev → Bool
  | [] => true
  | Ev.append u _ _ :: rest => emitsAfterAppend (u :: a) rest
  | Ev.emitDelete u :: rest => a.contains u && emitsAfterAppend a rest
  | _ :: rest => emitsAfterAppend a rest

/-- Every `uidStore` request in the trace comes after the delete-id queue
was closed (`closeDeletes`). -/
def uidStoreAfterClose (closed : Bool) : List Ev → Bool
  | [] => true
  | Ev.closeDeletes :: rest => uidStoreAfterClose true rest
  | Ev.uidStore _ :: rest => closed && uidStoreAfterClose closed rest
  | _ :: rest => uidStoreAfterClose closed rest

/-- Every UID named by a `uidStore` request in the trace had a successful
`append` earlier in the trace. -/
def cleanupAfterAppend (a : List Nat) : List Ev → Bool
  | [] => true
  | Ev.append u _ _ :: rest => cleanupAfterAppend (u :: a) rest
  | Ev.uidStore us :: rest =>
    us.all (fun u => a.contains u) && cleanupAfterAppend a rest
  | _ :: rest => cleanupAfterAppend a rest

/-- The UIDs appended (successfully) in the trace, accumulated onto `a`. -/
def appendedUids (a : List Nat) : List Ev → List Nat
  | [] => a
  | Ev.append u _ _ :: rest => appendedUids (u :: a) rest
  | _ :: rest => appendedUids a rest

/-- Whether a `closeDeletes` occurs in the trace (threaded through `b`). -/
def closedAfter (b : Bool) : List Ev → Bool
  | [] => b
  | Ev.closeDeletes :: rest => closedAfter true rest
  | _ :: rest => closedAfter b rest

theorem closedAfter_true (l : List Ev) : closedAfter true l = true := by
  induction l with
  | nil => rfl
  | cons ev rest ih => cases ev <;> simp [closedAfter, ih]

/-- The number of `uidStore` requests in the trace. -/
def countUidStore : List Ev → Nat
  | [] => 0
  | Ev.uidStore _ :: rest => countUidStore rest + 1
  | _ :: rest => countUidStore rest

theorem emitsAfterAppend_append (a : List Nat) (l r : List Ev) :
    emitsAfterAppend a (l ++ r) =
      (emitsAfterAppend a l && emitsAfterAppend (appendedUids a l) r) := by
  induction l generalizing a with
  | nil => simp [emitsAfterAppend, appendedUids]
  | cons ev rest ih =>
    cases ev <;> simp [emitsAfterAppend, appendedUids, ih, Bool.and_assoc]

theorem uidStoreAfterClose_append (b : Bool) (l r : List Ev) :
    uidStoreAfterClose b (l ++ r) =
      (uidStoreAfterClose b l && uidStoreAfterClose (closedAfter b l) r) := by
  induction l generalizing b with
  | nil => simp [uidStoreAfterClose, closedAfter]
  | cons ev rest ih =>
    cases ev <;>
      simp [uidStoreAfterClose, closedAfter, ih, Bool.and_assoc, closedAfter_true]

theorem cleanupAfterAppend_append (a : List Nat) (l r : List Ev) :
    cleanupAfterAppend a (l ++ r) =
      (cleanupAfterAppend a l && cleanupAfterAppend (appendedUids a l) r) := by
  induction l generalizing a with
  | nil => simp [cleanupAfterAppend, appendedUids]
  | cons ev rest ih =>
    cases ev <;> simp [cleanupAfterAppend, appendedUids, ih, Bool.and_assoc]

set_option linter.unnecessarySeqFocus false in
theorem countUidStore_append (l r : List Ev) :
    countUidStore (l ++ r) = countUidStore l + countUidStore r := by
  induction l with
  | nil => simp [countUidStore]
  | cons ev rest ih => cases ev <;> simp [countUidStore, ih] <;> try omega

theorem storeLoop_emits (f : Message → Option Err) (ms : List Message) :
    ∀ a, emitsAfterAppend a (storeLoop f ms).1 = true := by
  induction ms with
  | nil => intro a; rfl
  | cons m ms ih =>
    intro a
    cases hd : (filterFlags m.flags).1 with
    | true => simpa [storeLoop, hd] using ih a
    | false =>
      cases hf : f m with
      | some e => simp [storeLoop, hd, hf, emitsAfterAppend]
      | none =>
        simpa [storeLoop, hd, hf, emitsAfterAppend] using ih (m.uid :: a)

theorem storeLoop_closed (f : Message → Option Err) (ms : List Message) :
    ∀ b, closedAfter b (storeLoop f ms).1 = true := by
  induction ms with
  | nil => intro b; simp [storeLoop, closedAfter, closedAfter_true]
  | cons m ms ih =>
    intro b
    cases hd : (filterFlags m.flags).1 with
    | true => simpa [storeLoop, hd] using ih b
    | false =>
      cases hf : f m with
      | some e => simp [storeLoop, hd, hf, closedAfter, closedAfter_true]
      | none => simpa [storeLoop, hd, hf, closedAfter] using ih b

theorem storeLoop_no_uidStore (f : Message → Option Err) (ms : List Message) :
    ∀ b, uidStoreAfterClose b (storeLoop f ms).1 = true := by
  induction ms with
  | nil => intro b; rfl
  | cons m ms ih =>
    intro b
    cases hd : (filterFlags m.flags).1 with
    | true => simpa [storeLoop, hd] using ih b
    | false =>
      cases hf : f m with
      | some e => simp [storeLoop, hd, hf, uidStoreAfterClose]
      | none => simpa [storeLoop, hd, hf, uidStoreAfterClose] using ih b

theorem storeLoop_cleanup (f : Message → Option Err) (ms : List Message) :
    ∀ a, cleanupAfterAppend a (storeLoop f ms).1 = true := by
  induction ms with
  | nil => intro a; rfl
  | cons m ms ih =>
    intro a
    cases hd : (filterFlags m.flags).1 with
    | true => simpa [storeLoop, hd] using ih a
    | false =>
      cases hf : f m with
      | some e => simp [storeLoop, hd, hf, cleanupAfterAppend]
      | none =>
        simpa [storeLoop, hd, hf, cleanupAfterAppend] using ih (m.uid :: a)

theorem storeLoop_count (f : Message → Option Err) (ms : List Message) :
    countUidStore (storeLoop f ms).1 = 0 := by
  induction ms with
  | nil => rfl
  | cons m ms ih =>
    cases hd : (filterFlags m.flags).1 with
    | true => simpa [storeLoop, hd] using ih
    | false =>
      cases hf : f m with
      | some e => simp [storeLoop, hd, hf, countUidStore]
      | none => simpa [storeLoop, hd, hf, countUidStore] using ih

theorem mem_appendedUids_of_mem (l : List Ev) :
    ∀ a u, u ∈ a → u ∈ appendedUids a l := by
  induction l with
  | nil => intro a u h; simpa [appendedUids] using h
  | cons ev rest ih =>
    intro a u h
    cases ev <;> simp [appendedUids] <;>
      first
      | exact ih a u h
      | exact ih _ u (by simp [h])

theorem storeLoop_dels_appended (f : Message → Option Err) (ms : List Message) :
    ∀ a u, u ∈ (storeLoop f ms).2.1 →
      u ∈ appendedUids a (storeLoop f ms).1 := by
  induction ms with
  | nil => intro a u h; simp [storeLoop] at h
  | cons m ms ih =>
    intro a u h
    cases hd : (filterFlags m.flags).1 with
    | true =>
      rw [storeLoop, if_pos hd] at h ⊢
      exact ih a u h
    | false =>
      cases hf : f m with
      | some e => simp [storeLoop, hd, hf] at h
      | none =>
        rw [storeLoop, if_neg (by simp [hd]), hf] at h ⊢
        simp only [List.mem_cons] at h
        simp only [appendedUids]
        rcases h with h | h
        · subst h
          exact mem_appendedUids_of_mem _ _ _ (List.mem_cons_self _ _)
        · exact ih _ u h

theorem fetch_evs_cases (se fe : Option Err) (mb : List Message) :
    (fetchMessages se fe mb).1 = [Ev.selectSource, Ev.closeMessages] ∨
    (fetchMessages se fe mb).1 =
      [Ev.selectSource, Ev.fetchReq 1 mb.length, Ev.closeMessages] := by
  cases se with
  | some e => left; rfl
  | none =>
    by_cases h : mb.length < 1
    · left; simp [fetchMessages, h]
    · right; simp [fetchMessages, h]

theorem store_evs_cases (se : Option Err) (f : Message → Option Err)
    (msgs : List Message) :
    (storeMessages se f msgs).1 = [Ev.closeDeletes] ∨
    (storeMessages se f msgs).1 = Ev.selectTarget :: (storeLoop f msgs).1 := by
  cases se with
  | some e => left; rfl
  | none => right; rfl

theorem store_dels_cases (se : Option Err) (f : Message → Option Err)
    (msgs : List Message) :
    (storeMessages se f msgs).2.1 = [] ∨
    ((storeMessages se f msgs).2.1 = (storeLoop f msgs).2.1 ∧
     (storeMessages se f msgs).1 = Ev.selectTarget :: (storeLoop f msgs).1) := by
  cases se with
  | some e => left; rfl
  | none => right; exact ⟨rfl, rfl⟩

theorem pipeline_emits (env : HandleEnv) (a : List Nat) :
    emitsAfterAppend a (pipelineRun env).1 = true := by
  simp only [pipelineRun]
  rw [emitsAfterAppend_append, emitsAfterAppend_append]
  have hf : emitsAfterAppend a
      (fetchMessages env.fetchSelectErr env.fetchErr env.mailbox).1 = true := by
    rcases fetch_evs_cases env.fetchSelectErr env.fetchErr env.mailbox with h | h <;>
      simp [h, emitsAfterAppend]
  have hs : ∀ a2, emitsAfterAppend a2
      (storeMessages env.storeSelectErr env.appendRes
        (fetchMessages env.fetchSelectErr env.fetchErr env.mailbox).2.1).1 = true := by
    intro a2
    rcases store_evs_cases env.storeSelectErr env.appendRes
        (fetchMessages env.fetchSelectErr env.fetchErr env.mailbox).2.1 with h | h <;>
      simp [h, emitsAfterAppend, storeLoop_emits]
  have hc : ∀ a3, emitsAfterAppend a3
      (cleanMessages env.uidStoreErr
        (storeMessages env.storeSelectErr env.appendRes
          (fetchMessages env.fetchSelectErr env.fetchErr env.mailbox).2.1).2.1).1 = true := by
    intro a3
    unfold cleanMessages
    split <;> simp [emitsAfterAppend]
  simp [hf, hs, hc]


theorem closedAfter_append (b : Bool) (l r : List Ev) :
    closedAfter b (l ++ r) = closedAfter (closedAfter b l) r := by
  induction l generalizing b with
  | nil => simp [closedAfter]
  | cons ev rest ih => cases ev <;> simp [closedAfter, ih]

theorem appendedUids_append (a : List Nat) (l r : List Ev) :
    appendedUids a (l ++ r) = appendedUids (appendedUids a l) r := by
  induction l generalizing a with
  | nil => simp [appendedUids]
  | cons ev rest ih => cases ev <;> simp [appendedUids, ih]

theorem pipeline_uidStore_closed (env : HandleEnv) (b : Bool) :
    uidStoreAfterClose b (pipelineRun env).1 = true := by
  simp only [pipelineRun]
  rw [uidStoreAfterClose_append, uidStoreAfterClose_append, closedAfter_append]
  have hf : uidStoreAfterClose b
      (fetchMessages env.fetchSelectErr env.fetchErr env.mailbox).1 = true := by
    rcases fetch_evs_cases env.fetchSelectErr env.fetchErr env.mailbox with h | h <;>
      simp [h, uidStoreAfterClose]
  have hs : ∀ b2, uidStoreAfterClose b2
      (storeMessages env.storeSelectErr env.appendRes
        (fetchMessages env.fetchSelectErr env.fetchErr env.mailbox).2.1).1 = true := by
    intro b2
    rcases store_evs_cases env.storeSelectErr env.appendRes
        (fetchMessages env.fetchSelectErr env.fetchErr env.mailbox).2.1 with h | h <;>
      simp [h, uidStoreAfterClose, storeLoop_no_uidStore]
  have hsClosed : ∀ b2, closedAfter b2
      (storeMessages env.storeSelectErr env.appendRes
        (fetchMessages env.fetchSelectErr env.fetchErr env.mailbox).2.1).1 = true := by
    intro b2
    rcases store_evs_cases env.storeSelectErr env.appendRes
        (fetchMessages env.fetchSelectErr env.fetchErr env.mailbox).2.1 with h | h <;>
      simp [h, closedAfter, closedAfter_true, storeLoop_closed]
  have hc : uidStoreAfterClose true
      (cleanMessages env.uidStoreErr
        (storeMessages env.storeSelectErr env.appendRes
          (fetchMessages env.fetchSelectErr env.fetchErr env.mailbox).2.1).2.1).1 = true := by
    unfold cleanMessages
    split <;> simp [uidStoreAfterClose]
  rw [hsClosed]
  simp [hf, hs, hc]

theorem pipeline_cleanup (env : HandleEnv) (a : List Nat) :
    cleanupAfterAppend a (pipelineRun env).1 = true := by
  simp only [pipelineRun]
  rw [cleanupAfterAppend_append, cleanupAfterAppend_append, appendedUids_append]
  have hfApp : appendedUids a
      (fetchMessages env.fetchSelectErr env.fetchErr env.mailbox).1 = a := by
    rcases fetch_evs_cases env.fetchSelectErr env.fetchErr env.mailbox with h | h <;>
      simp [h, appendedUids]
  have hf : cleanupAfterAppend a
      (fetchMessages env.fetchSelectErr env.fetchErr env.mailbox).1 = true := by
    rcases fetch_evs_cases env.fetchSelectErr env.fetchErr env.mailbox with h | h <;>
      simp [h, cleanupAfterAppend]
  have hs : ∀ a2, cleanupAfterAppend a2
      (storeMessages env.storeSelectErr env.appendRes
        (fetchMessages env.fetchSelectErr env.fetchErr env.mailbox).2.1).1 = true := by
    intro a2
    rcases store_evs_cases env.storeSelectErr env.appendRes
        (fetchMessages env.fetchSelectErr env.fetchErr env.mailbox).2.1 with h | h <;>
      simp [h, cleanupAfterAppend, storeLoop_cleanup]
  have hc : cleanupAfterAppend
      (appendedUids a
        (storeMessages env.storeSelectErr env.appendRes
          (fetchMessages env.fetchSelectErr env.fetchErr env.mailbox).2.1).1)
      (cleanMessages env.uidStoreErr
        (storeMessages env.storeSelectErr env.appendRes
          (fetchMessages env.fetchSelectErr env.fetchErr env.mailbox).2.1).2.1).1 = true := by
    rcases store_dels_cases env.storeSelectErr env.appendRes
        (fetchMessages env.fetchSelectErr env.fetchErr env.mailbox).2.1 with h | h
    · simp [h, cleanMessages, cleanupAfterAppend]
    · rw [h.1, h.2]
      by_cases hempty :
          (storeLoop env.appendRes
            (fetchMessages env.fetchSelectErr env.fetchErr env.mailbox).2.1).2.1.isEmpty
      · simp [cleanMessages, hempty, cleanupAfterAppend]
      · simp only [cleanMessages, hempty, Bool.false_eq_true, if_false]
        simp only [cleanupAfterAppend, appendedUids, Bool.and_eq_true,
          List.all_eq_true]
        refine ⟨fun u hu => ?_, trivial⟩
        rw [List.elem_iff]
        exact storeLoop_dels_appended env.appendRes _ a u hu
  rw [hfApp]
  simp [hf, hs, hc]

theorem pipeline_count (env : HandleEnv) :
    countUidStore (pipelineRun env).1 ≤ 1 := by
  simp only [pipelineRun]
  rw [countUidStore_append, countUidStore_append]
  have hf : countUidStore
      (fetchMessages env.fetchSelectErr env.fetchErr env.mailbox).1 = 0 := by
    rcases fetch_evs_cases env.fetchSelectErr env.fetchErr env.mailbox with h | h <;>
      simp [h, countUidStore]
  have hs : countUidStore
      (storeMessages env.storeSelectErr env.appendRes
        (fetchMessages env.fetchSelectErr env.fetchErr env.mailbox).2.1).1 = 0 := by
    rcases store_evs_cases env.storeSelectErr env.appendRes
        (fetchMessages env.fetchSelectErr env.fetchErr env.mailbox).2.1 with h | h <;>
      simp [h, countUidStore, storeLoop_count]
  have hc : countUidStore
      (cleanMessages env.uidStoreErr
        (storeMessages env.storeSelectErr env.appendRes
          (fetchMessages env.fetchSelectErr env.fetchErr env.mailbox).2.1).2.1).1 ≤ 1 := by
    unfold cleanMessages
    split <;> simp [countUidStore]
  omega

/-- Claim C1: in every handle cycle, a message's source UID is emitted onto
the delete-id queue only after its target APPEND returned success; the
cleanup UID STORE request (of which there is at most one) is issued only
after the delete-id queue is closed; and every UID named in a cleanup
request had a successful append earlier in the cycle. -/
theorem handle_delete_ordering (env : HandleEnv) (c : Config) :
    emitsAfterAppend [] (handle env c).2.1 = true ∧
    uidStoreAfterClose false (handle env c).2.1 = true ∧
    cleanupAfterAppend [] (handle env c).2.1 = true ∧
    countUidStore (handle env c).2.1 ≤ 1 := by
  cases hso : env.srcOpenErr with
  | some e =>
    simp [handle, hso, emitsAfterAppend, uidStoreAfterClose,
      cleanupAfterAppend, countUidStore]
  | none =>
    cases hto : env.tgtOpenErr with
    | some e =>
      simp [handle, hso, hto, emitsAfterAppend, uidStoreAfterClose,
        cleanupAfterAppend, countUidStore]
    | none =>
      by_cases hcc : (pipelineRun env).2.2.isSome
      all_goals
        refine ⟨?_, ?_, ?_, ?_⟩
      all_goals
        simp only [handle, hso, hto, hcc, if_true, if_false,
          Bool.false_eq_true]
      any_goals
        simp [emitsAfterAppend_append, uidStoreAfterClose_append,
          cleanupAfterAppend_append, countUidStore_append,
          appendedUids_append, closedAfter_append,
          emitsAfterAppend, uidStoreAfterClose, cleanupAfterAppend,
          appendedUids, closedAfter, closedAfter_true,
          pipeline_emits, pipeline_uidStore_closed, pipeline_cleanup]
      all_goals
        simp only [countUidStore_append, countUidStore]
      all_goals
        have hp := pipeline_count env
        omega

/-- Claim C3, counterexample: a `close()` call whose idle `Logout` fails
returns that error early and leaves the lifecycle state at shutdown, not
at initial, refuting "after every call to close() the state is Initial". -/
theorem close_error_state_cex :
    (close ⟨FState.connected, 0, []⟩ (some "logout failed") none none).1.state ≠
      FState.initial ∧
    (close ⟨FState.connected, 0, []⟩ (some "logout failed") none none).1.state =
      FState.shutdown := by
  refine ⟨?_, rfl⟩
  decide

/-- Claim C3 (amended): after any `handle()` call, success or error, the
lifecycle state equals its value immediately before the call; after a
`close()` call that returns no error the state is initial, while a
`close()` call that returns an error leaves the state at shutdown. -/
theorem handle_close_state (env : HandleEnv) (c : Config)
    (e1 e2 e3 : Option Err) :
    (handle env c).1.state = c.state ∧
    ((close c e1 e2 e3).2 = none → (close c e1 e2 e3).1.state = FState.initial) ∧
    ((close c e1 e2 e3).2 ≠ none →
      (close c e1 e2 e3).1.state = FState.shutdown) := by
  refine ⟨?_, ?_, ?_⟩
  · cases hso : env.srcOpenErr <;> cases hto : env.tgtOpenErr <;>
      simp [handle, hso, hto]
  · cases e1 <;> cases e2 <;> cases e3 <;> simp [close]
  · cases e1 <;> cases e2 <;> cases e3 <;> simp [close]

theorem handle_close_state_w :
    (close ⟨FState.connected, 3, []⟩ none none none).2 = none ∧
    (close ⟨FState.connected, 3, []⟩ none none none).1.state = FState.initial := by
  refine ⟨by decide, ?_⟩
  exact (handle_close_state
    ⟨none, none, none, none, [], none, fun _ => none, none⟩
    ⟨FState.connected, 3, []⟩ none none none).2.1 (by decide)

/-- Claim C6: with a source mailbox holding zero messages the fetch stage
closes the message queue immediately with no error, and the handle cycle
completes with no APPEND performed, no cleanup UID STORE request issued,
and no cancellation. -/
theorem handle_empty_mailbox (env : HandleEnv) (c : Config)
    (hmb : env.mailbox = [])
    (hfs : env.fetchSelectErr = none)
    (hss : env.storeSelectErr = none)
    (hso : env.srcOpenErr = none)
    (hto : env.tgtOpenErr = none) :
    fetchMessages env.fetchSelectErr env.fetchErr env.mailbox =
      ([Ev.selectSource, Ev.closeMessages], [], none) ∧
    (∀ u fl d, Ev.append u fl d ∉ (handle env c).2.1) ∧
    (∀ us, Ev.uidStore us ∉ (handle env c).2.1) ∧
    (handle env c).2.2 = false := by
  refine ⟨by simp [fetchMessages, hmb, hfs], ?_, ?_, ?_⟩ <;>
    simp [handle, pipelineRun, fetchMessages, storeMessages, storeLoop,
      cleanMessages, firstSome, hmb, hfs, hss, hso, hto]

theorem handle_empty_mailbox_w :
    (∀ u fl d, Ev.append u fl d ∉
      (handle ⟨none, none, none, none, [], none, fun _ => none, none⟩
        ⟨FState.watching, 0, []⟩).2.1) ∧
    (handle ⟨none, none, none, none, [], none, fun _ => none, none⟩
      ⟨FState.watching, 0, []⟩).2.2 = false := by
  have h := handle_empty_mailbox
    ⟨none, none, none, none, [], none, fun _ => none, none⟩
    ⟨FState.watching, 0, []⟩ rfl rfl rfl rfl rfl
  exact ⟨h.2.1, h.2.2.2⟩

/-- The error of the idle SELECT result, for stating which error `init`
returns. -/
def exceptErr : Except Err MailboxStatus → Option Err
  | Except.error e => some e
  | Except.ok _ => none

/-- Claim C7: `init` performs (an initial segment of) the six steps
source-probe-open, source-probe-close, target-probe-open,
target-probe-close, idle-open, idle-select in that order; it succeeds
exactly when the state ends at connected, performing all six steps; any
failure leaves the state at connecting, and the returned error is the
first failing step's error. -/
theorem init_probe_order (env : InitEnv) (c : Config) :
    (∃ n, (init env c).2.1 = initStepsAll.take n) ∧
    ((init env c).2.2 = none ↔ (init env c).1.state = FState.connected) ∧
    ((init env c).2.2 ≠ none → (init env c).1.state = FState.connecting) ∧
    ((init env c).2.2 = none → (init env c).2.1 = initStepsAll) ∧
    (init env c).2.2 = firstSome [env.srcOpenErr, env.srcCloseErr,
      env.tgtOpenErr, env.tgtCloseErr, env.idleOpenErr,
      exceptErr env.idleSelect] := by
  cases h1 : env.srcOpenErr with
  | some e => exact ⟨⟨1, by simp [init, h1, initStepsAll]⟩,
      by simp [init, h1, firstSome]⟩
  | none =>
  cases h2 : env.srcCloseErr with
  | some e => exact ⟨⟨2, by simp [init, h1, h2, initStepsAll]⟩,
      by simp [init, h1, h2, firstSome]⟩
  | none =>
  cases h3 : env.tgtOpenErr with
  | some e => exact ⟨⟨3, by simp [init, h1, h2, h3, initStepsAll]⟩,
      by simp [init, h1, h2, h3, firstSome]⟩
  | none =>
  cases h4 : env.tgtCloseErr with
  | some e => exact ⟨⟨4, by simp [init, h1, h2, h3, h4, initStepsAll]⟩,
      by simp [init, h1, h2, h3, h4, firstSome]⟩
  | none =>
  cases h5 : env.idleOpenErr with
  | some e => exact ⟨⟨5, by simp [init, h1, h2, h3, h4, h5, initStepsAll]⟩,
      by simp [init, h1, h2, h3, h4, h5, firstSome]⟩
  | none =>
  cases h6 : env.idleSelect with
  | error e => exact ⟨⟨6, by simp [init, h1, h2, h3, h4, h5, h6, initStepsAll]⟩,
      by simp [init, h1, h2, h3, h4, h5, h6, firstSome, exceptErr]⟩
  | ok st => exact ⟨⟨6, by simp [init, h1, h2, h3, h4, h5, h6, initStepsAll]⟩,
      by simp [init, h1, h2, h3, h4, h5, h6, firstSome, exceptErr]⟩

theorem init_probe_order_w :
    (init ⟨none, none, some "target login failed", none, none,
        Except.ok ⟨"INBOX", 2⟩⟩ ⟨FState.initial, 0, []⟩).2.2 ≠ none ∧
    (init ⟨none, none, some "target login failed", none, none,
        Except.ok ⟨"INBOX", 2⟩⟩ ⟨FState.initial, 0, []⟩).1.state =
      FState.connecting := by
  refine ⟨by decide, ?_⟩
  exact (init_probe_order
    ⟨none, none, some "target login failed", none, none,
      Except.ok ⟨"INBOX", 2⟩⟩ ⟨FState.initial, 0, []⟩).2.2.1 (by decide)

/-- Claim C10: after every successful `init()` the single-slot updates
channel already holds exactly the mailbox update produced by the watch
session's initial SELECT, so the first iteration of `watch()` runs a
handle cycle immediately, before any server notification. -/
theorem init_primes_updates (env : InitEnv) (c : Config) (st : MailboxStatus)
    (h1 : env.srcOpenErr = none) (h2 : env.srcCloseErr = none)
    (h3 : env.tgtOpenErr = none) (h4 : env.tgtCloseErr = none)
    (h5 : env.idleOpenErr = none) (h6 : env.idleSelect = Except.ok st) :
    (init env c).1.updates = [Update.mailboxUpd st] ∧
    ∀ henv, (watchFirstIteration henv (init env c).1).2 = true := by
  constructor
  · simp [init, h1, h2, h3, h4, h5, h6]
  · intro henv
    simp [init, h1, h2, h3, h4, h5, h6, watchFirstIteration, watchStep]

theorem init_primes_updates_w :
    (init ⟨none, none, none, none, none, Except.ok ⟨"INBOX", 2⟩⟩
        ⟨FState.initial, 0, []⟩).1.updates =
      [Update.mailboxUpd ⟨"INBOX", 2⟩] := by
  exact (init_primes_updates
    ⟨none, none, none, none, none, Except.ok ⟨"INBOX", 2⟩⟩
    ⟨FState.initial, 0, []⟩ ⟨"INBOX", 2⟩ rfl rfl rfl rfl rfl rfl).1

theorem DeletedFlag_ne_RecentFlag : DeletedFlag ≠ RecentFlag := by decide

theorem DeletedFlag_ne_SeenFlag : DeletedFlag ≠ SeenFlag := by decide

theorem filterFlags_deleted (fs : List String) :
    (filterFlags fs).1 = true ↔ DeletedFlag ∈ fs := by
  induction fs with
  | nil => simp [filterFlags]
  | cons f fs ih =>
    by_cases h1 : f = DeletedFlag
    · simp [filterFlags, h1]
    · have hne : ¬DeletedFlag = f := fun h => h1 h.symm
      by_cases h2 : f = RecentFlag
      · simp only [filterFlags, if_neg h1, if_pos h2, List.mem_cons]
        simp [ih, hne]
      · by_cases h3 : f = SeenFlag
        · simp only [filterFlags, if_neg h1, if_neg h2, if_pos h3,
            List.mem_cons]
          simp [ih, hne]
        · simp only [filterFlags, if_neg h1, if_neg h2, if_neg h3,
            List.mem_cons]
          simp [ih, hne]

theorem filterFlags_no_recent_seen (fs : List String) :
    RecentFlag ∉ (filterFlags fs).2 ∧ SeenFlag ∉ (filterFlags fs).2 := by
  induction fs with
  | nil => simp [filterFlags]
  | cons f fs ih =>
    by_cases h1 : f = DeletedFlag
    · simpa [filterFlags, h1] using ih
    · by_cases h2 : f = RecentFlag
      · simpa [filterFlags, if_neg h1, if_pos h2] using ih
      · by_cases h3 : f = SeenFlag
        · simpa [filterFlags, if_neg h1, if_neg h2, if_pos h3] using ih
        · have hr : ¬RecentFlag = f := fun h => h2 h.symm
          have hs : ¬SeenFlag = f := fun h => h3 h.symm
          simp only [filterFlags, if_neg h1, if_neg h2, if_neg h3,
            List.mem_cons]
          exact ⟨fun h => h.elim (fun h => hr h) ih.1,
                 fun h => h.elim (fun h => hs h) ih.2⟩

theorem storeLoop_append_src (f : Message → Option Err) (ms : List Message)
    (u : Nat) (fl : List String) (d : Nat)
    (h : Ev.append u fl d ∈ (storeLoop f ms).1) :
    ∃ m, m ∈ ms ∧ m.uid = u ∧ fl = (filterFlags m.flags).2 ∧
      (filterFlags m.flags).1 = false := by
  induction ms with
  | nil => simp [storeLoop] at h
  | cons m ms ih =>
    cases hd : (filterFlags m.flags).1 with
    | true =>
      rw [storeLoop, if_pos hd] at h
      obtain ⟨m2, hmem, hrest⟩ := ih h
      exact ⟨m2, List.mem_cons_of_mem _ hmem, hrest⟩
    | false =>
      cases hf : f m with
      | some e => simp [storeLoop, hd, hf] at h
      | none =>
        rw [storeLoop, if_neg (by simp [hd]), hf] at h
        simp only [List.mem_cons] at h
        rcases h with h | h | h
        · obtain ⟨h1, h2, h3⟩ := Ev.append.inj h
          exact ⟨m, List.mem_cons_self _ _, h1.symm, h2, hd⟩
        · exact absurd h (by simp)
        · obtain ⟨m2, hmem, hrest⟩ := ih h
          exact ⟨m2, List.mem_cons_of_mem _ hmem, hrest⟩

theorem storeLoop_emit_src (f : Message → Option Err) (ms : List Message)
    (u : Nat) (h : Ev.emitDelete u ∈ (storeLoop f ms).1) :
    ∃ m, m ∈ ms ∧ m.uid = u ∧ (filterFlags m.flags).1 = false := by
  induction ms with
  | nil => simp [storeLoop] at h
  | cons m ms ih =>
    cases hd : (filterFlags m.flags).1 with
    | true =>
      rw [storeLoop, if_pos hd] at h
      obtain ⟨m2, hmem, hrest⟩ := ih h
      exact ⟨m2, List.mem_cons_of_mem _ hmem, hrest⟩
    | false =>
      cases hf : f m with
      | some e => simp [storeLoop, hd, hf] at h
      | none =>
        rw [storeLoop, if_neg (by simp [hd]), hf] at h
        simp only [List.mem_cons] at h
        rcases h with h | h | h
        · exact absurd h (by simp)
        · exact ⟨m, List.mem_cons_self _ _, (Ev.emitDelete.inj h).symm, hd⟩
        · obtain ⟨m2, hmem, hrest⟩ := ih h
          exact ⟨m2, List.mem_cons_of_mem _ hmem, hrest⟩

theorem storeLoop_dels_src (f : Message → Option Err) (ms : List Message)
    (u : Nat) (h : u ∈ (storeLoop f ms).2.1) :
    ∃ m, m ∈ ms ∧ m.uid = u ∧ (filterFlags m.flags).1 = false := by
  induction ms with
  | nil => simp [storeLoop] at h
  | cons m ms ih =>
    cases hd : (filterFlags m.flags).1 with
    | true =>
      rw [storeLoop, if_pos hd] at h
      obtain ⟨m2, hmem, hrest⟩ := ih h
      exact ⟨m2, List.mem_cons_of_mem _ hmem, hrest⟩
    | false =>
      cases hf : f m with
      | some e => simp [storeLoop, hd, hf] at h
      | none =>
        rw [storeLoop, if_neg (by simp [hd]), hf] at h
        simp only [List.mem_cons] at h
        rcases h with h | h
        · exact ⟨m, List.mem_cons_self _ _, h.symm, hd⟩
        · obtain ⟨m2, hmem, hrest⟩ := ih h
          exact ⟨m2, List.mem_cons_of_mem _ hmem, hrest⟩

/-- The fetched message list is either empty or the whole mailbox. -/
theorem fetch_msgs_cases (se fe : Option Err) (mb : List Message) :
    (fetchMessages se fe mb).2.1 = [] ∨ (fetchMessages se fe mb).2.1 = mb := by
  cases se with
  | some e => left; rfl
  | none =>
    by_cases h : mb.length < 1
    · left; simp [fetchMessages, h]
    · right; simp [fetchMessages, h]

/-- Every event of a handle trace is a store-loop event, a cleanup event,
or one of the fixed bookkeeping events. -/
theorem handle_trace_mem (env : HandleEnv) (c : Config) (ev : Ev)
    (hev : ev ∈ (handle env c).2.1) :
    ev ∈ (storeLoop env.appendRes
        (fetchMessages env.fetchSelectErr env.fetchErr env.mailbox).2.1).1 ∨
    ev ∈ (cleanMessages env.uidStoreErr
        (storeMessages env.storeSelectErr env.appendRes
          (fetchMessages env.fetchSelectErr env.fetchErr env.mailbox).2.1).2.1).1 ∨
    ev ∈ [Ev.openSource, Ev.openTarget, Ev.selectSource,
          Ev.fetchReq 1 env.mailbox.length, Ev.closeMessages, Ev.selectTarget,
          Ev.closeDeletes, Ev.cancel, Ev.closeTarget, Ev.closeSource] := by
  cases hso : env.srcOpenErr with
  | some e =>
    right; right
    simp [handle, hso] at hev
    simp [hev]
  | none =>
    cases hto : env.tgtOpenErr with
    | some e =>
      right; right
      simp [handle, hso, hto] at hev
      rcases hev with h | h | h <;> simp [h]
    | none =>
      simp only [handle, hso, hto] at hev
      simp only [List.mem_append] at hev
      rcases hev with ((h | h) | h) | h
      · right; right
        simp only [List.mem_cons, List.not_mem_nil, or_false] at h
        rcases h with h | h <;> simp [h]
      · rw [pipelineRun] at h
        simp only [List.mem_append] at h
        rcases h with (h | h) | h
        · right; right
          rcases fetch_evs_cases env.fetchSelectErr env.fetchErr env.mailbox
            with hf | hf <;> rw [hf] at h <;>
            simp only [List.mem_cons, List.not_mem_nil, or_false] at h
          · rcases h with h | h <;> simp [h]
          · rcases h with h | h | h <;> simp [h]
        · rcases store_evs_cases env.storeSelectErr env.appendRes
            (fetchMessages env.fetchSelectErr env.fetchErr env.mailbox).2.1
            with hs | hs <;> rw [hs] at h
          · right; right
            simp only [List.mem_cons, List.not_mem_nil, or_false] at h
            simp [h]
          · rcases List.mem_cons.mp h with h | h
            · right; right; simp [h]
            · left; exact h
        · right; left; exact h
      · right; right
        by_cases hcc : (pipelineRun env).2.2.isSome = true
        · rw [if_pos hcc] at h
          simp only [List.mem_cons, List.not_mem_nil, or_false] at h
          simp [h]
        · rw [if_neg hcc] at h
          exact absurd h (List.not_mem_nil ev)
      · right; right
        simp only [List.mem_cons, List.not_mem_nil, or_false] at h
        rcases h with h | h <;> simp [h]

theorem clean_evs_cases (e : Option Err) (dels : List Nat) :
    (cleanMessages e dels).1 = [] ∨
    (cleanMessages e dels).1 = [Ev.uidStore dels] := by
  unfold cleanMessages
  split
  · left; rfl
  · right; rfl

theorem storeLoop_no_uidStore_mem (f : Message → Option Err)
    (ms : List Message) (us : List Nat) :
    Ev.uidStore us ∉ (storeLoop f ms).1 := by
  induction ms with
  | nil => simp [storeLoop]
  | cons m ms ih =>
    cases hd : (filterFlags m.flags).1 with
    | true => rw [storeLoop, if_pos hd]; exact ih
    | false =>
      cases hf : f m with
      | some e => simp [storeLoop, hd, hf]
      | none =>
        rw [storeLoop, if_neg (by simp [hd]), hf]
        simp only [List.mem_cons, not_or]
        exact ⟨by simp, by simp, ih⟩

/-- Claim C2: a message whose flag set at fetch time contains the deleted
flag is never appended to the target, never has its UID emitted onto the
delete-id queue, and never appears in a cleanup request; and every
APPEND in the cycle carries a flag list with the recent and seen flags
stripped.  UIDs are assumed unique within the mailbox, as IMAP
guarantees. -/
theorem store_skips_deleted (env : HandleEnv) (c : Config) (m : Message)
    (hnd : (env.mailbox.map Message.uid).Nodup)
    (hm : m ∈ env.mailbox) (hdel : DeletedFlag ∈ m.flags) :
    (∀ fl d, Ev.append m.uid fl d ∉ (handle env c).2.1) ∧
    Ev.emitDelete m.uid ∉ (handle env c).2.1 ∧
    (∀ us, Ev.uidStore us ∈ (handle env c).2.1 → m.uid ∉ us) ∧
    (∀ u fl d, Ev.append u fl d ∈ (handle env c).2.1 →
      RecentFlag ∉ fl ∧ SeenFlag ∉ fl) := by
  have hmdel : (filterFlags m.flags).1 = true :=
    (filterFlags_deleted m.flags).mpr hdel
  have hkey : ∀ m2, m2 ∈
      (fetchMessages env.fetchSelectErr env.fetchErr env.mailbox).2.1 →
      m2.uid = m.uid → (filterFlags m2.flags).1 = false → False := by
    intro m2 hmem huid hff
    rcases fetch_msgs_cases env.fetchSelectErr env.fetchErr env.mailbox
      with hf | hf
    · rw [hf] at hmem
      exact absurd hmem (List.not_mem_nil m2)
    · rw [hf] at hmem
      have heq : m2 = m := List.inj_on_of_nodup_map hnd hmem hm huid
      rw [heq, hmdel] at hff
      exact Bool.noConfusion hff
  refine ⟨?_, ?_, ?_, ?_⟩
  · intro fl d h
    rcases handle_trace_mem env c _ h with h1 | h1 | h1
    · obtain ⟨m2, hmem, huid, _, hff⟩ := storeLoop_append_src _ _ _ _ _ h1
      exact hkey m2 hmem huid hff
    · rcases clean_evs_cases env.uidStoreErr _ with hc | hc <;>
        rw [hc] at h1 <;> simp at h1
    · simp at h1
  · intro h
    rcases handle_trace_mem env c _ h with h1 | h1 | h1
    · obtain ⟨m2, hmem, huid, hff⟩ := storeLoop_emit_src _ _ _ h1
      exact hkey m2 hmem huid hff
    · rcases clean_evs_cases env.uidStoreErr _ with hc | hc <;>
        rw [hc] at h1 <;> simp at h1
    · simp at h1
  · intro us hus hmuid
    rcases handle_trace_mem env c _ hus with h1 | h1 | h1
    · exact storeLoop_no_uidStore_mem _ _ _ h1
    · rcases clean_evs_cases env.uidStoreErr _ with hc | hc <;> rw [hc] at h1
      · simp at h1
      · simp only [List.mem_singleton] at h1
        have hdels := Ev.uidStore.inj h1
        rw [hdels] at hmuid
        rcases store_dels_cases env.storeSelectErr env.appendRes
            (fetchMessages env.fetchSelectErr env.fetchErr env.mailbox).2.1
          with hsd | hsd
        · rw [hsd] at hmuid
          exact absurd hmuid (List.not_mem_nil _)
        · rw [hsd.1] at hmuid
          obtain ⟨m2, hmem, huid, hff⟩ := storeLoop_dels_src _ _ _ hmuid
          exact hkey m2 hmem huid hff
    · simp at h1
  · intro u fl d h
    rcases handle_trace_mem env c _ h with h1 | h1 | h1
    · obtain ⟨m2, _, _, hfl, _⟩ := storeLoop_append_src _ _ _ _ _ h1
      rw [hfl]
      exact filterFlags_no_recent_seen m2.flags
    · rcases clean_evs_cases env.uidStoreErr _ with hc | hc <;>
        rw [hc] at h1 <;> simp at h1
    · simp at h1

theorem store_skips_deleted_w :
    ((([⟨1, [Getmail.DeletedFlag], 5, "a"⟩, ⟨2, [], 6, "b"⟩] :
        List Message).map Message.uid).Nodup ∧
      (⟨1, [Getmail.DeletedFlag], 5, "a"⟩ : Message) ∈
        ([⟨1, [Getmail.DeletedFlag], 5, "a"⟩, ⟨2, [], 6, "b"⟩] :
          List Message) ∧
      Getmail.DeletedFlag ∈ [Getmail.DeletedFlag]) ∧
    (∀ fl d, Ev.append 1 fl d ∉
      (handle ⟨none, none, none, none,
        [⟨1, [Getmail.DeletedFlag], 5, "a"⟩, ⟨2, [], 6, "b"⟩],
        none, fun _ => none, none⟩ ⟨FState.watching, 0, []⟩).2.1) := by
  refine ⟨⟨by decide, by decide, by decide⟩, ?_⟩
  exact (store_skips_deleted
    ⟨none, none, none, none,
      [⟨1, [Getmail.DeletedFlag], 5, "a"⟩, ⟨2, [], 6, "b"⟩],
      none, fun _ => none, none⟩ ⟨FState.watching, 0, []⟩
    ⟨1, [Getmail.DeletedFlag], 5, "a"⟩ (by decide) (by decide) (by decide)).1

theorem storeLoop_stops (f : Message → Option Err) (bad : Message) (e : Err)
    (hbadflag : (filterFlags bad.flags).1 = false) (hbadres : f bad = some e) :
    ∀ (pre post : List Message),
      (∀ m ∈ pre, f m = none ∧ (filterFlags m.flags).1 = false) →
      storeLoop f (pre ++ bad :: post) = storeLoop f (pre ++ [bad]) := by
  intro pre
  induction pre with
  | nil =>
    intro post _
    simp only [List.nil_append]
    rw [storeLoop, if_neg (by simp [hbadflag]), hbadres,
        storeLoop, if_neg (by simp [hbadflag]), hbadres]
  | cons p pre ih =>
    intro post hpre
    have hp := hpre p (List.mem_cons_self _ _)
    simp only [List.cons_append]
    rw [storeLoop, if_neg (by simp [hp.2]), hp.1,
        storeLoop, if_neg (by simp [hp.2]), hp.1]
    rw [ih post (fun m hm => hpre m (List.mem_cons_of_mem _ hm))]

theorem storeLoop_partial (f : Message → Option Err) (bad : Message) (e : Err)
    (hbadflag : (filterFlags bad.flags).1 = false) (hbadres : f bad = some e) :
    ∀ (pre post : List Message),
      (∀ m ∈ pre, f m = none ∧ (filterFlags m.flags).1 = false) →
      (storeLoop f (pre ++ bad :: post)).2.1 = pre.map Message.uid ∧
      (storeLoop f (pre ++ bad :: post)).2.2 = some e := by
  intro pre
  induction pre with
  | nil =>
    intro post _
    simp only [List.nil_append, List.map_nil]
    rw [storeLoop, if_neg (by simp [hbadflag]), hbadres]
    exact ⟨rfl, rfl⟩
  | cons p pre ih =>
    intro post hpre
    have hp := hpre p (List.mem_cons_self _ _)
    have hih := ih post (fun m hm => hpre m (List.mem_cons_of_mem _ hm))
    simp only [List.cons_append, List.map_cons]
    rw [storeLoop, if_neg (by simp [hp.2]), hp.1]
    exact ⟨by rw [hih.1], hih.2⟩

/-- Claim C5: when an APPEND fails partway through the store stage, the
stage stops without processing the remaining messages (the store result
over `pre ++ bad :: post` equals the one over `pre ++ [bad]`), the UIDs
emitted before the failure are exactly those of `pre`, the stage error
is the append error, and the cleanup stage still issues one UID STORE
request naming exactly those earlier UIDs. -/
theorem store_failure_keeps_earlier (env : HandleEnv) (c : Config)
    (pre : List Message) (bad : Message) (post : List Message) (e : Err)
    (hmb : env.mailbox = pre ++ bad :: post)
    (hpre : ∀ m ∈ pre, env.appendRes m = none ∧ (filterFlags m.flags).1 = false)
    (hbadflag : (filterFlags bad.flags).1 = false)
    (hbadres : env.appendRes bad = some e)
    (hfs : env.fetchSelectErr = none)
    (hss : env.storeSelectErr = none)
    (hso : env.srcOpenErr = none)
    (hto : env.tgtOpenErr = none) :
    storeLoop env.appendRes (pre ++ bad :: post) =
      storeLoop env.appendRes (pre ++ [bad]) ∧
    (storeLoop env.appendRes (pre ++ bad :: post)).2.1 =
      pre.map Message.uid ∧
    (storeLoop env.appendRes (pre ++ bad :: post)).2.2 = some e ∧
    (pre ≠ [] →
      Ev.uidStore (pre.map Message.uid) ∈ (handle env c).2.1) := by
  have hstops := storeLoop_stops env.appendRes bad e hbadflag hbadres pre post hpre
  have hpart := storeLoop_partial env.appendRes bad e hbadflag hbadres pre post hpre
  refine ⟨hstops, hpart.1, hpart.2, ?_⟩
  intro hprene
  have hfetched :
      (fetchMessages env.fetchSelectErr env.fetchErr env.mailbox).2.1 =
        pre ++ bad :: post := by
    rw [hfs, hmb]
    simp [fetchMessages]
  have hdels :
      (storeMessages env.storeSelectErr env.appendRes
        (fetchMessages env.fetchSelectErr env.fetchErr env.mailbox).2.1).2.1 =
        pre.map Message.uid := by
    rw [hss, hfetched]
    simpa [storeMessages] using hpart.1
  have hne : (pre.map Message.uid).isEmpty = false := by
    cases pre with
    | nil => exact absurd rfl hprene
    | cons p pre => simp
  simp only [handle, hso, hto]
  simp only [List.mem_append]
  left; left; right
  rw [pipelineRun]
  simp only [List.mem_append]
  right
  rw [hdels]
  simp [cleanMessages, hne]

theorem store_failure_keeps_earlier_w :
    ((fun (m : Message) =>
        if m.uid = 2 then some "append failed" else none)
        (⟨2, [], 11, "b"⟩ : Message) = some "append failed") ∧
    Ev.uidStore ([(⟨1, [], 10, "a"⟩ : Message)].map Message.uid) ∈
      (handle ⟨none, none, none, none,
        [⟨1, [], 10, "a"⟩, ⟨2, [], 11, "b"⟩, ⟨3, [], 12, "c"⟩],
        none,
        fun m => if m.uid = 2 then some "append failed" else none,
        none⟩ ⟨FState.watching, 0, []⟩).2.1 := by
  refine ⟨by decide, ?_⟩
  exact (store_failure_keeps_earlier
    ⟨none, none, none, none,
      [⟨1, [], 10, "a"⟩, ⟨2, [], 11, "b"⟩, ⟨3, [], 12, "c"⟩],
      none,
      fun m => if m.uid = 2 then some "append failed" else none,
      none⟩ ⟨FState.watching, 0, []⟩
    [⟨1, [], 10, "a"⟩] ⟨2, [], 11, "b"⟩ [⟨3, [], 12, "c"⟩] "append failed"
    rfl (by decide) (by decide) (by decide)
    rfl rfl rfl rfl).2.2.2 (by decide)

/-- Claim C4, counterexample: with a single message whose APPEND fails, the
pipeline's error is the append failure, yet `handle` returns no value and
the subsequent `watch` return carries only the idle result (here `none`),
not the append error — refuting "handle() returns the pipeline's error
... reported as that cycle's error to handle()'s caller". -/
theorem handle_returns_error_cex :
    (pipelineRun ⟨none, none, none, none, [⟨1, [], 10, "a"⟩], none,
        fun _ => some "append failed", none⟩).2.2 = some "append failed" ∧
    (watchAfterHandle ⟨none, none, none, none, [⟨1, [], 10, "a"⟩], none,
        fun _ => some "append failed", none⟩
      ⟨FState.watching, 0, []⟩ none).2 = WatchCont.returned none ∧
    WatchCont.returned (none : Option Err) ≠
      WatchCont.returned (some "append failed") := by
  refine ⟨by decide, by decide, by decide⟩

/-- Claim C4 (amended): `handle()` opens fresh source and target sessions
(the target only once the source open succeeded), closes every session it
opened on every exit path regardless of outcome, and signals a failure of
any stage by cancelling the watch context instead of returning it:
`handle` returns no error value, and the only error its caller (the watch
loop) can subsequently observe is the idle long-poll's own result. -/
theorem handle_sessions_and_cancel (env : HandleEnv) (c : Config)
    (idleRes : Option Err) :
    (Ev.openSource ∈ (handle env c).2.1 ↔ env.srcOpenErr = none) ∧
    (Ev.openTarget ∈ (handle env c).2.1 ↔
      (env.srcOpenErr = none ∧ env.tgtOpenErr = none)) ∧
    (Ev.openSource ∈ (handle env c).2.1 →
      Ev.closeSource ∈ (handle env c).2.1) ∧
    (Ev.openTarget ∈ (handle env c).2.1 →
      Ev.closeTarget ∈ (handle env c).2.1) ∧
    (handle env c).2.2 =
      (env.srcOpenErr.isSome || env.tgtOpenErr.isSome ||
        (pipelineRun env).2.2.isSome) ∧
    (∀ e, (watchAfterHandle env c idleRes).2 = WatchCont.returned e →
      e = idleRes) := by
  have hlast : ∀ e,
      (watchAfterHandle env c idleRes).2 = WatchCont.returned e →
      e = idleRes := by
    intro e he
    simp only [watchAfterHandle] at he
    by_cases hb : (handle env c).2.2 = true
    · rw [if_pos hb] at he
      exact (WatchCont.returned.inj he).symm
    · rw [if_neg hb] at he
      exact absurd he (by simp)
  cases hso : env.srcOpenErr with
  | some e =>
    refine ⟨?_, ?_, ?_, ?_, ?_, hlast⟩ <;>
      simp [handle, hso]
  | none =>
    cases hto : env.tgtOpenErr with
    | some e =>
      refine ⟨?_, ?_, ?_, ?_, ?_, hlast⟩ <;>
        simp [handle, hso, hto]
    | none =>
      refine ⟨?_, ?_, ?_, ?_, ?_, hlast⟩ <;>
        simp [handle, hso, hto]

theorem handle_sessions_and_cancel_w :
    Ev.openSource ∈
      (handle ⟨none, none, none, none, [], none, fun _ => none, none⟩
        ⟨FState.watching, 0, []⟩).2.1 ∧
    Ev.closeSource ∈
      (handle ⟨none, none, none, none, [], none, fun _ => none, none⟩
        ⟨FState.watching, 0, []⟩).2.1 := by
  have h := handle_sessions_and_cancel
    ⟨none, none, none, none, [], none, fun _ => none, none⟩
    ⟨FState.watching, 0, []⟩ none
  have hs := h.1.mpr rfl
  exact ⟨hs, h.2.2.1 hs⟩

theorem finishToken_mem (env : TokenEnv) (tok : Token) (evs : List TEv)
    (ev : TEv) (h : ev ∈ evs) : ev ∈ (finishToken env tok evs).1 := by
  cases hr : env.refreshRes tok with
  | error e => simp [finishToken, hr, h]
  | ok t2 =>
    cases hsv : env.saveRes with
    | some e2 => simp [finishToken, hr, hsv, h]
    | none => simp [finishToken, hr, hsv, h]

/-- Claim C8: when the backend load returns a cached token, the
device-authorization steps are skipped entirely — no device-code
request, no notification, no device-token exchange — and the cached
token is only passed through the refresh wrapper and saved before being
returned. -/
theorem token_cache_short_circuit (env : TokenEnv) (t : Token)
    (hload : env.loadRes = Except.ok (some t)) :
    (∀ ev ∈ (tokenSourceToken env).1,
      ev = TEv.loadToken ∨ ev = TEv.refresh ∨ ev = TEv.save) ∧
    TEv.deviceAuthReq ∉ (tokenSourceToken env).1 ∧
    (∀ l cd, TEv.notify l cd ∉ (tokenSourceToken env).1) ∧
    TEv.deviceTokenExchange ∉ (tokenSourceToken env).1 ∧
    (∀ t2, env.refreshRes t = Except.ok t2 → env.saveRes = none →
      (tokenSourceToken env).2 = Except.ok t2 ∧
      (tokenSourceToken env).1 = [TEv.loadToken, TEv.refresh, TEv.save]) := by
  simp only [tokenSourceToken, hload]
  cases hr : env.refreshRes t with
  | error e => simp [finishToken, hr]
  | ok t2 =>
    cases hsv : env.saveRes with
    | some e2 => simp [finishToken, hr, hsv]
    | none => simp [finishToken, hr, hsv]

theorem token_cache_short_circuit_w :
    (({ loadRes := Except.ok (some ⟨"acc", "ref", 100⟩),
        deviceAuthRes := Except.error "unused",
        notifyRes := none,
        deviceTokenRes := Except.error "unused",
        refreshRes := fun tk => Except.ok tk,
        saveRes := none } : TokenEnv).loadRes =
      Except.ok (some (⟨"acc", "ref", 100⟩ : Token))) ∧
    TEv.deviceAuthReq ∉
      (tokenSourceToken
        { loadRes := Except.ok (some ⟨"acc", "ref", 100⟩),
          deviceAuthRes := Except.error "unused",
          notifyRes := none,
          deviceTokenRes := Except.error "unused",
          refreshRes := fun tk => Except.ok tk,
          saveRes := none }).1 := by
  refine ⟨rfl, ?_⟩
  exact (token_cache_short_circuit
    { loadRes := Except.ok (some ⟨"acc", "ref", 100⟩),
      deviceAuthRes := Except.error "unused",
      notifyRes := none,
      deviceTokenRes := Except.error "unused",
      refreshRes := fun tk => Except.ok tk,
      saveRes := none } ⟨"acc", "ref", 100⟩ rfl).2.1

/-- Claim C9: when the bounded wait of `LoadToken` elapses (or its context
is cancelled) with nothing retained and no error, `LoadToken` returns no
token together with a nil error, and `Token()` then proceeds to the
device-authorization request instead of failing. -/
theorem load_timeout_proceeds (lenv : LoadEnv) (tenv : TokenEnv)
    (h1 : lenv.connectErr = none) (h2 : lenv.subscribeErr = none)
    (h3 : lenv.wait = LoadWaitOutcome.ctxDone ∨
      lenv.wait = LoadWaitOutcome.waitTimeout)
    (h4 : tenv.loadRes = mqttLoadToken lenv) :
    mqttLoadToken lenv = Except.ok none ∧
    TEv.deviceAuthReq ∈ (tokenSourceToken tenv).1 := by
  have hl : mqttLoadToken lenv = Except.ok none := by
    rcases h3 with h | h <;> simp [mqttLoadToken, h1, h2, h]
  refine ⟨hl, ?_⟩
  rw [hl] at h4
  simp only [tokenSourceToken, h4]
  cases hda : tenv.deviceAuthRes with
  | error e => simp
  | ok code =>
    cases hn : tenv.notifyRes with
    | some e => simp
    | none =>
      cases hdt : tenv.deviceTokenRes with
      | error e => simp
      | ok tok => exact finishToken_mem _ _ _ _ (by simp)

theorem load_timeout_proceeds_w :
    mqttLoadToken ⟨none, none, LoadWaitOutcome.waitTimeout⟩ =
      Except.ok none ∧
    TEv.deviceAuthReq ∈
      (tokenSourceToken
        { loadRes := Except.ok none,
          deviceAuthRes := Except.ok ⟨"https://example.test/dev", "ABCD-EFGH"⟩,
          notifyRes := none,
          deviceTokenRes := Except.ok ⟨"acc2", "ref2", 200⟩,
          refreshRes := fun tk => Except.ok tk,
          saveRes := none }).1 := by
  exact load_timeout_proceeds ⟨none, none, LoadWaitOutcome.waitTimeout⟩
    { loadRes := Except.ok none,
      deviceAuthRes := Except.ok ⟨"https://example.test/dev", "ABCD-EFGH"⟩,
      notifyRes := none,
      deviceTokenRes := Except.ok ⟨"acc2", "ref2", 200⟩,
      refreshRes := fun tk => Except.ok tk,
      saveRes := none } rfl rfl (Or.inr rfl) rfl
